import Mathlib

/-!
Shallow embedding of the peer-review-insights repository (Go sources:
the `gitclient` package with `github.go` and the interface/type declarations,
and the `metrics` package with `CalculateMetrics`,
`CalculateTotalCommentPeriodLength`, `getUserReviews`, `getReviewComments`
and `isCommentAddressedByCommit`).

Modelling conventions:
- Instants (Go `time.Time`) are `Int` nanoseconds since an epoch; durations
  (Go `time.Duration`, an `int64` nanosecond count) are likewise `Int`.
  `t1.Before(t2)` is `t1 < t2`, `t1.After(t2)` is `t2 < t1`,
  `t1.Sub(t2)` is `t1 - t2`.
- Go `float64` fields are modelled as `Rat`. Every concrete evaluation of a
  `float64` value below uses only small integer ratios, where `float64`
  arithmetic is exact except for the final value `1/100` (whose nearest
  `float64` is not `1/100` exactly, but is in particular far from `100`),
  so the rational model and the float computation agree on every comparison
  made here.
- Go `*string` fields that the source compares with `==` (pointer identity)
  are modelled by `StrPtr`: an allocation identity plus the pointed-to
  string value. In a consistent heap two `*string` values are `==` iff they
  are the same allocation, and the same allocation holds a single value, so
  Go pointer equality is modelled as equality of the whole `StrPtr`.
  `*string` fields that the source only dereferences are modelled as plain
  `String`, and nil-able pointers that the source tests against `nil` are
  modelled as `Option`.
- Go maps keyed by strings/ints are modelled as association lists in first
  insertion order; the aggregation results the claims are about do not
  depend on Go's (randomised) map iteration order, because distinct keys
  are updated independently.
-/

/-- Go `time.Minute` in nanoseconds. -/
def goMinute : Int := 60 * 1000000000

/-- Model of a Go `*string` pointer: allocation identity plus pointed-to
value. Go `==` on two such pointers compares allocations; in a consistent
heap this coincides with equality of the whole structure. -/
structure StrPtr where
  addr : Int
  val : String
deriving DecidableEq

/-- The `gitclient.PullRequest` record. `Title` and `UserLogin` are `*string`
in the source but only ever dereferenced for their values, so they are
modelled as plain `String`; `CreatedAt` is a `*time.Time` always present. -/
structure PullRequest where
  number : Int
  title : String
  userLogin : String
  createdAt : Int
deriving DecidableEq

/-- The `gitclient.PullRequestReview` record. `SubmittedAt` is a `*time.Time`
that the source tests against `nil` (`getUserReviews`), hence `Option`. -/
structure PullRequestReview where
  id : Int
  userID : Int
  userLogin : String
  submittedAt : Option Int
deriving DecidableEq

/-- The `gitclient.PullRequestComment` record. `Path` is a `*string` that
`isCommentAddressedByCommit` compares with `==` against a commit file's
`Filename` pointer, so it is modelled as `StrPtr`. -/
structure PullRequestComment where
  pullRequestReviewID : Int
  userID : Int
  path : StrPtr
  originalPosition : Int
  createdAt : Int
deriving DecidableEq

/-- The `gitclient.RepositoryCommitFile` record. `Filename` is a `*string`
compared with `==` against a comment's `Path` pointer, hence `StrPtr`;
`Patch` is a `*string` dereferenced unconditionally by
`isCommentAddressedByCommit`, modelled by its pointed-to value. -/
structure RepositoryCommitFile where
  filename : StrPtr
  patch : String
deriving DecidableEq

/-- The `gitclient.RepositoryCommit` record. -/
structure RepositoryCommit where
  createdAt : Int
  files : List RepositoryCommitFile
deriving DecidableEq

/-- The 3-minute floor `minDuration` of `CalculateTotalCommentPeriodLength`. -/
def minReviewDuration : Int := 3 * goMinute

/-- Model of `sort.Slice(dateTimes, ...Before...)` in
`CalculateTotalCommentPeriodLength`: the elements are plain instants, so
every comparison sort produces the same ascending list. -/
def sortTimes (l : List Int) : List Int := List.insertionSort (· ≤ ·) l

/-- Loop of `CalculateTotalCommentPeriodLength` over the sorted timestamps:
`prev` is the previously visited timestamp (`dateTimes[i-1]`), `start` and
`e` delimit the current period, `total` is the accumulated duration. The
final period is closed after the walk, as in the source. -/
def periodWalk : List Int → Int → Int → Int → Int → Int
  | [], _prev, start, e, total => total + (e - start)
  | t :: rest, prev, start, e, total =>
    if t - prev ≤ 30 * goMinute then
      periodWalk rest t start t total
    else
      periodWalk rest t t t (total + (e - start))

/-- `metrics.CalculateTotalCommentPeriodLength`: builds the timestamp list
from the review submission instant and the comment creation instants, sorts
it ascending, merges timestamps within the 30-minute threshold into periods,
sums the period lengths, and clamps the result up to the 3-minute floor
(which is returned directly when there are no comments). -/
def CalculateTotalCommentPeriodLength (reviewComments : List PullRequestComment)
    (reviewSubmittedAt : Int) : Int :=
  if reviewComments.length = 0 then minReviewDuration
  else
    match sortTimes (reviewSubmittedAt :: reviewComments.map (fun c => c.createdAt)) with
    | [] => minReviewDuration
    | d0 :: rest =>
      let totalDuration := periodWalk rest d0 d0 d0 0
      if totalDuration ≤ minReviewDuration then minReviewDuration else totalDuration

/-- Specification-side total of the period-merging loop: the raw session
total before the floor is applied (the source's `totalDuration` variable),
exposed so that the floor clamping can be stated about it. -/
def computedSessionTotal (reviewComments : List PullRequestComment)
    (reviewSubmittedAt : Int) : Int :=
  match sortTimes (reviewSubmittedAt :: reviewComments.map (fun c => c.createdAt)) with
  | [] => 0
  | d0 :: rest => periodWalk rest d0 d0 d0 0

/-- Specification-side session splitting, following the spec's words: sort
ascending and split exactly at adjacent gaps strictly greater than the
30-minute threshold; each returned chunk is one maximal session. -/
def splitSessions : List Int → List (List Int)
  | [] => []
  | [t] => [[t]]
  | t :: u :: ts =>
    if u - t ≤ 30 * goMinute then
      match splitSessions (u :: ts) with
      | s :: rest => (t :: s) :: rest
      | [] => [[t]]
    else
      [t] :: splitSessions (u :: ts)

/-- Span of one session: its end minus its start (sessions are nonempty in
every use, so the defaults are irrelevant). -/
def sessionSpan (s : List Int) : Int := s.getLastD 0 - s.headD 0

/-- Specification-side result of the Period Merger on a sorted timestamp
list: the sum over maximal sessions of (session end − session start). -/
def sessionSpanSum (l : List Int) : Int := ((splitSessions l).map sessionSpan).sum

/-- Sum of session spans where the first session's span is measured from an
explicit `start` instant; this is the shape of `periodWalk`'s accumulator. -/
def spanSumFrom (start : Int) : List (List Int) → Int
  | [] => 0
  | s :: rest => (s.getLastD 0 - start) + (rest.map sessionSpan).sum

/-- Helper building a concrete comment that carries only a creation instant. -/
def mkTimedComment (t : Int) : PullRequestComment :=
  { pullRequestReviewID := 1, userID := 1, path := { addr := 1, val := "file.go" },
    originalPosition := 1, createdAt := t }

/-- Model of the fields of a `github.PullRequest` page entry used by the
data source: `GetCreatedAt` plus the fields copied by `newPullRequest`. -/
structure GHPullRequest where
  number : Int
  title : String
  userLogin : String
  createdAt : Int
deriving DecidableEq

/-- The `newPullRequest` conversion of `github.go`. -/
def newPullRequest (pr : GHPullRequest) : PullRequest :=
  { number := pr.number, title := pr.title, userLogin := pr.userLogin,
    createdAt := pr.createdAt }

/-- The `newPullRequestSlice` conversion (`mapSlice` over `newPullRequest`). -/
def newPullRequestSlice (prs : List GHPullRequest) : List PullRequest :=
  prs.map newPullRequest

/-- Go slice expression `prs[a : b]` for the index values produced by
`filterPullRequests` (there `0 ≤ a ≤ b ≤ len`). -/
def listSlice (l : List GHPullRequest) (a b : Int) : List GHPullRequest :=
  (l.drop a.toNat).take (b.toNat - a.toNat)

/-- Scan loop of `filterPullRequests`: `i` is the current index,
`startIndex`/`endIndex`/`found`/`fb` mirror the source's variables
(`fb` is `foundBeforeDateFrom`); encountering a PR created before
`dateFrom` sets the stop signal and breaks. -/
def filterScan (dateFrom dateTo : Int) :
    Int → Int → Int → Bool → Bool → List GHPullRequest → Int × Int × Bool × Bool
  | _, startIndex, endIndex, found, fb, [] => (startIndex, endIndex, found, fb)
  | i, startIndex, endIndex, found, fb, pr :: rest =>
    if pr.createdAt < dateFrom then
      (startIndex, endIndex, found, true)
    else
      if dateTo < pr.createdAt then
        filterScan dateFrom dateTo (i + 1) startIndex i found fb rest
      else
        filterScan dateFrom dateTo (i + 1) (if startIndex = -1 then i else startIndex) i true fb
          rest

/-- `gitclient.filterPullRequests`: scans a page of PRs, returns the slice
between the first and last indices that stayed at or after `dateFrom`
(provided an in-window PR was found), the found flag, and the
stop-pagination signal. -/
def filterPullRequests (prs : List GHPullRequest) (dateFrom dateTo : Int) :
    List GHPullRequest × Bool × Bool :=
  match prs with
  | [] => ([], false, false)
  | _ :: _ =>
    match filterScan dateFrom dateTo 0 (-1) (-1) false false prs with
    | (startIndex, endIndex, found, foundBeforeDateFrom) =>
      if found = false then ([], false, foundBeforeDateFrom)
      else (listSlice prs startIndex (endIndex + 1), found, foundBeforeDateFrom)

/-- In-window predicate of the Window Filter: `dateFrom ≤ createdAt ≤ dateTo`,
both boundaries inclusive. -/
def inWindow (dateFrom dateTo : Int) (pr : GHPullRequest) : Bool :=
  decide (dateFrom ≤ pr.createdAt) && decide (pr.createdAt ≤ dateTo)

/-- Prefix of a page strictly newer than `dateTo` (descending pages start
with the newest PRs). -/
def pageHigh (dateTo : Int) (l : List GHPullRequest) : List GHPullRequest :=
  l.takeWhile (fun pr => decide (dateTo < pr.createdAt))

/-- Remainder of a page after the newer-than-`dateTo` prefix. -/
def pageRest (dateTo : Int) (l : List GHPullRequest) : List GHPullRequest :=
  l.dropWhile (fun pr => decide (dateTo < pr.createdAt))

/-- In-window segment of a descending page. -/
def pageMid (dateFrom dateTo : Int) (l : List GHPullRequest) : List GHPullRequest :=
  (pageRest dateTo l).takeWhile (fun pr => decide (dateFrom ≤ pr.createdAt))

/-- Before-the-window suffix of a descending page. -/
def pageLow (dateFrom dateTo : Int) (l : List GHPullRequest) : List GHPullRequest :=
  (pageRest dateTo l).dropWhile (fun pr => decide (dateFrom ≤ pr.createdAt))

/-- Concrete pull-request page entry used in witnesses. -/
def mkGHPR (n t : Int) : GHPullRequest :=
  { number := n, title := "t", userLogin := "u", createdAt := t }

/-- Character-list prefix test, used to define substring containment. -/
def charsStartWith : List Char → List Char → Bool
  | _, [] => true
  | [], _ :: _ => false
  | c :: cs, p :: ps => c == p && charsStartWith cs ps

/-- Substring containment on character lists. -/
def charsContain : List Char → List Char → Bool
  | [], pat => pat.isEmpty
  | c :: cs, pat => charsStartWith (c :: cs) pat || charsContain cs pat

/-- Go `strings.Contains`. -/
def strContains (s pat : String) : Bool := charsContain s.toList pat.toList

/-- Go `fmt.Sprintf("@@ -%d", n)`: the textual hunk-header pattern for the
removed-side starting line `n`. -/
def hunkPattern (n : Int) : String := "@@ -" ++ toString n

/-- `metrics.isCommentAddressedByCommit`: scans the commit's files; for a
file whose `Filename` pointer is Go-`==` to the comment's `Path` pointer
(pointer identity, modelled as `StrPtr` equality) it reports whether the
file's non-empty patch contains the textual pattern
`@@ -<originalPosition>`. -/
def isCommentAddressedByCommit (comment : PullRequestComment)
    (commit : RepositoryCommit) : Bool :=
  commit.files.any (fun file =>
    file.filename == comment.path
      && ((file.patch != "")
        && strContains file.patch (hunkPattern comment.originalPosition)))

/-- Inner double loop of `CalculateMetrics` counting the comments addressed
by some later commit: a comment counts once when some commit strictly after
its creation matches (the source breaks at the first matching commit). -/
def commentsLeadingToChangesCount (comments : List PullRequestComment)
    (commits : List RepositoryCommit) : Int :=
  comments.foldl (fun acc comment =>
    if commits.any (fun commit =>
        decide (comment.createdAt < commit.createdAt)
          && isCommentAddressedByCommit comment commit) then acc + 1 else acc) 0

/-- Model of a `github.PullRequestReview` response entry (the fields read
by `newPullRequestReview`), with its optional submission time. -/
structure GHPullRequestReview where
  id : Int
  userID : Int
  userLogin : String
  submittedAt : Option Int
deriving DecidableEq

/-- `gitclient.newPullRequestReview`: returns nil (modelled `none`) for a
review lacking `SubmittedAt`, otherwise the converted review. -/
def newPullRequestReview (prr : GHPullRequestReview) : Option PullRequestReview :=
  match prr.submittedAt with
  | none => none
  | some t =>
    some
      { id := prr.id
        userID := prr.userID
        userLogin := prr.userLogin
        submittedAt := some t }

/-- `gitclient.newPullRequestReviewSlice` (`mapSlice` over
`newPullRequestReview`): a nil conversion result stays in the slice as a
nil pointer. -/
def newPullRequestReviewSlice (prrs : List GHPullRequestReview) :
    List (Option PullRequestReview) :=
  prrs.map newPullRequestReview

/-- Append a review to its author's bucket (Go map insertion, first
insertion order of keys preserved). -/
def appendReview : List (String × List PullRequestReview) → String → PullRequestReview
    → List (String × List PullRequestReview)
  | [], k, v => [(k, [v])]
  | (k', vs) :: rest, k, v =>
    if k' = k then (k', vs ++ [v]) :: rest else (k', vs) :: appendReview rest k v

/-- Loop of `metrics.getUserReviews` over the review slice. A `none` entry
(a nil pointer, as produced by `newPullRequestReviewSlice` for a review
lacking `SubmittedAt`) makes the Go code evaluate `review.SubmittedAt` on a
nil pointer — a runtime panic, modelled as result `none`. -/
def getUserReviewsLoop (acc : List (String × List PullRequestReview)) :
    List (Option PullRequestReview) → Option (List (String × List PullRequestReview))
  | [] => some acc
  | none :: _ => none
  | some review :: rest =>
    if review.submittedAt ≠ none then
      getUserReviewsLoop (appendReview acc review.userLogin review) rest
    else
      getUserReviewsLoop acc rest

/-- `metrics.getUserReviews`: groups the submitted reviews by author login,
dropping entries whose `SubmittedAt` is nil; panics (`none`) on a nil
review pointer. -/
def getUserReviews (reviews : List (Option PullRequestReview)) :
    Option (List (String × List PullRequestReview)) :=
  getUserReviewsLoop [] reviews

/-- GitHub rate header of a response: remaining quota and reset instant. -/
structure GHRate where
  remaining : Int
  reset : Int
deriving DecidableEq

/-- Model of a `github.Response`: rate information and next page number
(0 when there is no further page). -/
structure GHResponse where
  rate : GHRate
  nextPage : Int
deriving DecidableEq

/-- Rate-usage counters of `gitclient.GitHubClient`. -/
structure GHClientState where
  apiRateUsed : Int
  apiRateRemaining : Int
deriving DecidableEq

/-- `gitclient.verifyRateLimit`: bumps the call counter, stores the
provider-reported remaining quota, and returns a rate-limit error carrying
the wait duration until the reset instant when the remaining quota is zero
(`now` models `time.Now()` inside `time.Until`). -/
def verifyRateLimit (g : GHClientState) (resp : GHResponse) (now : Int) :
    GHClientState × Option String :=
  let g' : GHClientState :=
    { apiRateUsed := g.apiRateUsed + 1, apiRateRemaining := resp.rate.remaining }
  if resp.rate.remaining = 0 then
    (g', some ("Rate limit reached and will be reset in " ++ toString (resp.rate.reset - now)))
  else
    (g', none)

/-- One page of the paginated `PullRequests.List` API: entries, response
metadata, and the transport error if any. -/
structure GHPRPage where
  prs : List GHPullRequest
  resp : GHResponse
  err : Option String
deriving DecidableEq

/-- Pagination loop of `gitclient.GetPullRequests`. The rate check's error
return value is discarded exactly as at the source's call site
(`g.verifyRateLimit(resp)` with the result unused); `fuel` bounds the
number of iterations so the model is total (theorems instantiate it large
enough), with `none` meaning the fuel ran out. -/
def getPullRequestsLoop (api : Int → GHPRPage) (dateFrom dateTo now : Int) :
    Nat → Int → GHClientState → List PullRequest
    → Option (List PullRequest × Option String × GHClientState)
  | 0, _, _, _ => none
  | fuel + 1, page, g, allPRs =>
    let pageResult := api page
    let rateResult := verifyRateLimit g pageResult.resp now
    match pageResult.err with
    | some e => some ([], some e, rateResult.1)
    | none =>
      match filterPullRequests pageResult.prs dateFrom dateTo with
      | (prsFiltered, found, foundBeforeDateFrom) =>
        let allPRs' := if found then allPRs ++ newPullRequestSlice prsFiltered else allPRs
        if pageResult.resp.nextPage = 0 || foundBeforeDateFrom then
          some (allPRs', none, rateResult.1)
        else
          getPullRequestsLoop api dateFrom dateTo now fuel pageResult.resp.nextPage
            rateResult.1 allPRs'

/-- `gitclient.GetPullRequests` (pagination and rate-limit model): starts
at the unset page number 0 with an empty accumulator. -/
def GetPullRequests (api : Int → GHPRPage) (dateFrom dateTo now : Int)
    (g : GHClientState) (fuel : Nat) :
    Option (List PullRequest × Option String × GHClientState) :=
  getPullRequestsLoop api dateFrom dateTo now fuel 0 g []

/-- `metrics.ContributorMetrics` (`float64` fields as `Rat`, durations as
`Int` nanoseconds). -/
structure ContributorMetrics where
  prsReviewed : Int
  totalComments : Int
  averageCommentsPerReview : Rat
  averageTimeToFirstReview : Int
  averageTimeToCompleteReview : Int
  totalLinesReviewed : Int
  averageLinesReviewed : Rat
  percentageCommentsLeadingToChanges : Rat
deriving DecidableEq

/-- Go zero value `&ContributorMetrics{}`. -/
def emptyContributorMetrics : ContributorMetrics :=
  { prsReviewed := 0
    totalComments := 0
    averageCommentsPerReview := 0
    averageTimeToFirstReview := 0
    averageTimeToCompleteReview := 0
    totalLinesReviewed := 0
    averageLinesReviewed := 0
    percentageCommentsLeadingToChanges := 0 }

/-- Lookup in the contributor map (assoc list keyed by login). -/
def mapGet : List (String × ContributorMetrics) → String → Option ContributorMetrics
  | [], _ => none
  | (k, v) :: rest, key => if k = key then some v else mapGet rest key

/-- Update-or-insert in the contributor map. -/
def mapSet : List (String × ContributorMetrics) → String → ContributorMetrics
    → List (String × ContributorMetrics)
  | [], key, v => [(key, v)]
  | (k, w) :: rest, key, v =>
    if k = key then (key, v) :: rest else (k, w) :: mapSet rest key v

/-- Append a comment to a user bucket of the inner grouping map. -/
def appendComment2 : List (Int × List PullRequestComment) → Int → PullRequestComment
    → List (Int × List PullRequestComment)
  | [], k, c => [(k, [c])]
  | (k', cs) :: rest, k, c =>
    if k' = k then (k', cs ++ [c]) :: rest else (k', cs) :: appendComment2 rest k c

/-- Append a comment to the `(reviewID, userID)` bucket of the outer
grouping map. -/
def appendComment : List (Int × List (Int × List PullRequestComment)) → Int → Int
    → PullRequestComment → List (Int × List (Int × List PullRequestComment))
  | [], rid, uid, c => [(rid, [(uid, [c])])]
  | (k, inner) :: rest, rid, uid, c =>
    if k = rid then (k, appendComment2 inner uid c) :: rest
    else (k, inner) :: appendComment rest rid uid c

/-- `metrics.getReviewComments`: groups comments by review ID then user ID,
preserving arrival order inside buckets. -/
def getReviewComments (comments : List PullRequestComment) :
    List (Int × List (Int × List PullRequestComment)) :=
  comments.foldl (fun acc c => appendComment acc c.pullRequestReviewID c.userID c) []

/-- Inner bucket lookup (a missing Go map key yields a nil slice). -/
def findUserBucket : List (Int × List PullRequestComment) → Int → List PullRequestComment
  | [], _ => []
  | (k, cs) :: rest, uid => if k = uid then cs else findUserBucket rest uid

/-- Outer bucket lookup (a missing Go map key yields an empty inner map). -/
def findReviewBucket : List (Int × List (Int × List PullRequestComment)) → Int
    → List (Int × List PullRequestComment)
  | [], _ => []
  | (k, inner) :: rest, rid => if k = rid then inner else findReviewBucket rest rid

/-- Go nested map access `reviewComments[review.ID][review.UserID]`. -/
def commentsFor (rc : List (Int × List (Int × List PullRequestComment)))
    (reviewID userID : Int) : List PullRequestComment :=
  findUserBucket (findReviewBucket rc reviewID) userID

/-- Body of the review loop in `CalculateMetrics`: accumulates the
first-review time and completion time, adds the comment count, and assigns
(not adds) the comments-leading-to-changes count — last write wins across
the author's reviews, as in the source. The submission time is dereferenced
(`getD 0`); `getUserReviews` only buckets reviews with a set
`submittedAt`. -/
def applyReview (pr : PullRequest)
    (reviewComments : List (Int × List (Int × List PullRequestComment)))
    (comments : List PullRequestComment) (commits : List RepositoryCommit)
    (um : ContributorMetrics) (review : PullRequestReview) : ContributorMetrics :=
  let firstReviewTime := review.submittedAt.getD 0
  let timeToFirstReview := firstReviewTime - pr.createdAt
  let completion :=
    CalculateTotalCommentPeriodLength (commentsFor reviewComments review.id review.userID)
      (review.submittedAt.getD 0)
  let nComments := (commentsFor reviewComments review.id review.userID).length
  let changeCount : Rat := ((commentsLeadingToChangesCount comments commits : Int) : Rat)
  let um1 := { um with averageTimeToFirstReview := um.averageTimeToFirstReview + timeToFirstReview }
  let um2 := { um1 with averageTimeToCompleteReview := um1.averageTimeToCompleteReview + completion }
  let um3 := { um2 with totalComments := um2.totalComments + nComments }
  { um3 with percentageCommentsLeadingToChanges := changeCount }

/-- Body of the per-author loop of `CalculateMetrics`: the PR's own author
is skipped (`user != *pr.UserLogin`); otherwise the author's entry is
created lazily and mutated through the `userMetrics` pointer (batched here
into one map update at the author's key). -/
def processUserBucket (pr : PullRequest)
    (reviewComments : List (Int × List (Int × List PullRequestComment)))
    (comments : List PullRequestComment) (commits : List RepositoryCommit)
    (m : List (String × ContributorMetrics)) (user : String)
    (reviews : List PullRequestReview) : List (String × ContributorMetrics) :=
  if user ≠ pr.userLogin then
    let m1 := if (mapGet m user).isSome then m else mapSet m user emptyContributorMetrics
    let um := (mapGet m1 user).getD emptyContributorMetrics
    let um1 := { um with prsReviewed := um.prsReviewed + 1 }
    let um2 := reviews.foldl (applyReview pr reviewComments comments commits) um1
    mapSet m1 user um2
  else m

/-- Per-PR accumulation of `CalculateMetrics`: iterates the author buckets
(Go map iteration modelled in first-insertion order; distinct keys are
updated independently). -/
def processPR (pr : PullRequest) (userReviews : List (String × List PullRequestReview))
    (reviewComments : List (Int × List (Int × List PullRequestComment)))
    (comments : List PullRequestComment) (commits : List RepositoryCommit)
    (m : List (String × ContributorMetrics)) : List (String × ContributorMetrics) :=
  userReviews.foldl
    (fun acc bucket => processUserBucket pr reviewComments comments commits acc bucket.1 bucket.2)
    m

/-- Final-averages step of `CalculateMetrics`, including the observed
self-referential percentage update `p /= (p / totalComments) * 100`.
Go `float64` division is modelled by exact rational division (`0/0`, NaN in
Go, is `0` here; the claims evaluate this formula only at inputs where it
is exact and nonzero). Duration division is Go `int64` division, truncating
toward zero (`Int.tdiv`). -/
def finalizeUserMetrics (um : ContributorMetrics) : ContributorMetrics :=
  let um1 :=
    if 0 < um.prsReviewed then
      { um with
        averageCommentsPerReview := (um.totalComments : Rat) / (um.prsReviewed : Rat),
        averageTimeToFirstReview := Int.tdiv um.averageTimeToFirstReview um.prsReviewed,
        averageTimeToCompleteReview := Int.tdiv um.averageTimeToCompleteReview um.prsReviewed,
        averageLinesReviewed := (um.totalLinesReviewed : Rat) / (um.prsReviewed : Rat) }
    else um
  if 0 < um1.totalComments then
    { um1 with percentageCommentsLeadingToChanges :=
        um1.percentageCommentsLeadingToChanges
          / ((um1.percentageCommentsLeadingToChanges / (um1.totalComments : Rat)) * 100) }
  else um1

/-- Finalization over every contributor entry. -/
def finalizeMetrics (m : List (String × ContributorMetrics)) :
    List (String × ContributorMetrics) :=
  m.map (fun kv => (kv.1, finalizeUserMetrics kv.2))

/-- The `gitclient.GitClient` interface as consumed by `CalculateMetrics`.
Reviews come back as a slice of nil-able pointers (the GitHub
implementation leaves a nil entry for each review lacking `SubmittedAt`);
`GetCommits` returns its results together with a list of non-fatal
errors. -/
structure GitClient where
  getPullRequests : String → String → Int → Int → Except String (List PullRequest)
  getReviews : String → String → Int → Except String (List (Option PullRequestReview))
  getComments : String → String → Int → Except String (List PullRequestComment)
  getCommits : String → String → Int → Int → Bool → List RepositoryCommit × List String

/-- PR loop of `CalculateMetrics`; result `none` models a run that panics
(nil review entry dereferenced inside `getUserReviews`), otherwise the
returned pair is the Go function's `(map, errs)` result with a `none` map
for the nil map. -/
def calculateMetricsLoop (client : GitClient) (owner repo : String) :
    List PullRequest → List (String × ContributorMetrics)
    → Option (Option (List (String × ContributorMetrics)) × List String)
  | [], metrics => some (some (finalizeMetrics metrics), [])
  | pr :: rest, metrics =>
    match client.getReviews owner repo pr.number with
    | .error e => some (none, [e])
    | .ok reviewsRaw =>
      match getUserReviews reviewsRaw with
      | none => none
      | some userReviews =>
        match client.getComments owner repo pr.number with
        | .error e => some (none, [e])
        | .ok comments =>
          let reviewComments := getReviewComments comments
          match comments with
          | [] =>
            calculateMetricsLoop client owner repo rest
              (processPR pr userReviews reviewComments comments [] metrics)
          | c0 :: _ =>
            match client.getCommits owner repo pr.number c0.createdAt true with
            | (commits, errs) =>
              if errs.length > 0 then some (none, errs)
              else
                calculateMetricsLoop client owner repo rest
                  (processPR pr userReviews reviewComments comments commits metrics)

/-- `metrics.CalculateMetrics`: fetches the windowed PRs and accumulates
per-contributor metrics, aborting with a nil map and the error list on any
fetch failure. -/
def CalculateMetrics (client : GitClient) (owner repo : String)
    (dateFrom dateTo : Int) :
    Option (Option (List (String × ContributorMetrics)) × List String) :=
  match client.getPullRequests owner repo dateFrom dateTo with
  | .error e => some (none, [e])
  | .ok prs => calculateMetricsLoop client owner repo prs []

/-- Shared `*string` allocation for the scenario: the comment's `Path` and
the commit file's `Filename` are the same pointer, so the matcher's pointer
comparison succeeds and the scenario isolates the finalization formula. -/
def scenarioPath : StrPtr := { addr := 7, val := "file.go" }

/-- Scenario PR authored by `contributor1`, created at instant 0. -/
def scenarioPR : PullRequest :=
  { number := 1, title := "Fix issue", userLogin := "contributor1", createdAt := 0 }

/-- Scenario review by `reviewer1`, submitted at instant 3000. -/
def scenarioReview : PullRequestReview :=
  { id := 1, userID := 11, userLogin := "reviewer1", submittedAt := some 3000 }

/-- Scenario comment on `file.go` at original position 10, created at 1000. -/
def scenarioComment : PullRequestComment :=
  { pullRequestReviewID := 1, userID := 11, path := scenarioPath, originalPosition := 10,
    createdAt := 1000 }

/-- Scenario commit after the comment touching `file.go` with a hunk at the
commented position. -/
def scenarioCommit : RepositoryCommit :=
  { createdAt := 2000, files := [{ filename := scenarioPath, patch := "@@ -10,7 +10,9 @@" }] }

/-- Test double for the end-to-end scenario (mirrors
`TestCalculateMetrics_Success`). -/
def scenarioClient : GitClient :=
  { getPullRequests := fun _ _ _ _ => .ok [scenarioPR]
    getReviews := fun _ _ _ => .ok [some scenarioReview]
    getComments := fun _ _ _ => .ok [scenarioComment]
    getCommits := fun _ _ _ _ _ => ([scenarioCommit], []) }

/-- Running (pre-finalization) metrics accumulated for `reviewer1` in the
end-to-end scenario: one PR reviewed, one comment, first-review time 3000,
completion time clamped to the floor, and a running change count of 1. -/
def scenarioRunningMetrics : ContributorMetrics :=
  { prsReviewed := 1
    totalComments := 1
    averageCommentsPerReview := 0
    averageTimeToFirstReview := 3000
    averageTimeToCompleteReview := minReviewDuration
    totalLinesReviewed := 0
    averageLinesReviewed := 0
    percentageCommentsLeadingToChanges := ((1 : Int) : Rat) }

/-- Comment for the matcher scenario: on `file.go` (pointer allocation 1),
original position 10, created at instant 5. -/
def matcherComment : PullRequestComment :=
  { pullRequestReviewID := 1, userID := 11, path := { addr := 1, val := "file.go" },
    originalPosition := 10, createdAt := 5 }

/-- Later commit whose file is named `file.go` through a different `*string`
allocation (the usual case: comment and commit come from different API
responses), with a hunk starting at the commented position. -/
def matcherCommitDistinctPtr : RepositoryCommit :=
  { createdAt := 6,
    files := [{ filename := { addr := 2, val := "file.go" }, patch := "@@ -10,7 +10,9 @@" }] }

/-- Later commit whose file shares the comment's `*string` allocation. -/
def matcherCommitSharedPtr : RepositoryCommit :=
  { createdAt := 6,
    files := [{ filename := { addr := 1, val := "file.go" }, patch := "@@ -10,7 +10,9 @@" }] }

/-- Later commit touching a differently named file. -/
def matcherCommitWrongName : RepositoryCommit :=
  { createdAt := 6,
    files := [{ filename := { addr := 1, val := "other.go" }, patch := "@@ -10,7 +10,9 @@" }] }

/-- Later commit with an empty patch for the commented file. -/
def matcherCommitEmptyPatch : RepositoryCommit :=
  { createdAt := 6,
    files := [{ filename := { addr := 1, val := "file.go" }, patch := "" }] }

/-- Commit identical to `matcherCommitSharedPtr` but created at the same
instant as the comment (not strictly after). -/
def matcherCommitNotAfter : RepositoryCommit :=
  { createdAt := 5,
    files := [{ filename := { addr := 1, val := "file.go" }, patch := "@@ -10,7 +10,9 @@" }] }

/-- GitHub review entry lacking a submission time (a pending/dismissed
review with no terminal submitted state). -/
def unsubmittedGHReview : GHPullRequestReview :=
  { id := 1, userID := 2, userLogin := "alice", submittedAt := none }

/-- GitHub review entry submitted at instant 5. -/
def submittedGHReview : GHPullRequestReview :=
  { id := 2, userID := 3, userLogin := "bob", submittedAt := some 5 }

/-- The converted form of `submittedGHReview`. -/
def submittedConverted : PullRequestReview :=
  { id := 2, userID := 3, userLogin := "bob", submittedAt := some 5 }

/-- A non-nil review value whose `SubmittedAt` is nil (as the unit tests
build directly, without going through `newPullRequestReview`). -/
def unsubmittedDirect : PullRequestReview :=
  { id := 1, userID := 2, userLogin := "alice", submittedAt := none }

/-- Two-page PR feed whose first response reports an exhausted quota
(`remaining = 0`, reset at instant 1000) while announcing a next page. -/
def rateApi : Int → GHPRPage := fun page =>
  if page = 0 then
    { prs := [mkGHPR 1 50]
      resp := { rate := { remaining := 0, reset := 1000 }, nextPage := 2 }
      err := none }
  else
    { prs := [mkGHPR 2 40]
      resp := { rate := { remaining := 4999, reset := 1000 }, nextPage := 0 }
      err := none }

/-- Test double whose PR fetch fails. -/
def failingClient : GitClient :=
  { getPullRequests := fun _ _ _ _ => .error ("boom")
    getReviews := fun _ _ _ => .ok []
    getComments := fun _ _ _ => .ok []
    getCommits := fun _ _ _ _ _ => ([], []) }

/-- Test double whose review fetch fails. -/
def reviewsFailClient : GitClient :=
  { getPullRequests := fun _ _ _ _ => .ok [scenarioPR]
    getReviews := fun _ _ _ => .error ("rev-boom")
    getComments := fun _ _ _ => .ok []
    getCommits := fun _ _ _ _ _ => ([], []) }

/-- Test double whose comment fetch fails. -/
def commentsFailClient : GitClient :=
  { getPullRequests := fun _ _ _ _ => .ok [scenarioPR]
    getReviews := fun _ _ _ => .ok [some scenarioReview]
    getComments := fun _ _ _ => .error ("com-boom")
    getCommits := fun _ _ _ _ _ => ([], []) }

/-- Test double whose commit fetch reports a non-fatal error list. -/
def commitsFailClient : GitClient :=
  { getPullRequests := fun _ _ _ _ => .ok [scenarioPR]
    getReviews := fun _ _ _ => .ok [some scenarioReview]
    getComments := fun _ _ _ => .ok [scenarioComment]
    getCommits := fun _ _ _ _ _ => ([], [("git-boom")]) }

/-- The first session returned by `splitSessions` starts with the head of
the input list. -/
theorem splitSessions_head (t : Int) (ts : List Int) :
    ∃ s rest, splitSessions (t :: ts) = (t :: s) :: rest := by
  induction ts generalizing t with
  | nil => exact ⟨[], [], rfl⟩
  | cons u ts ih =>
    by_cases h : u - t ≤ 30 * goMinute
    · obtain ⟨s, rest, hs⟩ := ih u
      exact ⟨u :: s, rest, by simp only [splitSessions, if_pos h, hs]⟩
    · exact ⟨[], splitSessions (u :: ts), by simp only [splitSessions, if_neg h]⟩

/-- On a nonempty list `getLastD` does not depend on the default. -/
theorem getLastD_default_irrel (a : Int) (t : List Int) (d₁ d₂ : Int) :
    (a :: t).getLastD d₁ = (a :: t).getLastD d₂ := by
  cases t with
  | nil => rfl
  | cons b t => rw [List.getLastD_cons d₁ a (b :: t), List.getLastD_cons d₂ a (b :: t)]

/-- Loop invariant of `periodWalk`: starting with the period open at `start`
and the previous timestamp `prev` equal to the current period end, the loop
adds to `total` exactly the session spans of `prev :: ts`, with the first
session measured from `start`. -/
theorem periodWalk_spec : ∀ (ts : List Int) (prev start total : Int),
    periodWalk ts prev start prev total
      = total + spanSumFrom start (splitSessions (prev :: ts)) := by
  intro ts
  induction ts with
  | nil =>
    intro prev start total
    simp [periodWalk, splitSessions, spanSumFrom]
  | cons t ts ih =>
    intro prev start total
    obtain ⟨s, rest, hs⟩ := splitSessions_head t ts
    by_cases h : t - prev ≤ 30 * goMinute
    · rw [periodWalk, if_pos h, ih t start total]
      simp only [splitSessions, if_pos h, hs, spanSumFrom]
      have : (prev :: t :: s).getLastD 0 = (t :: s).getLastD 0 := by
        rw [List.getLastD_cons]
        exact getLastD_default_irrel t s prev 0
      rw [this]
    · rw [periodWalk, if_neg h, ih t t (total + (prev - start))]
      simp only [splitSessions, if_neg h, hs, spanSumFrom, List.map_cons, List.sum_cons,
        sessionSpan, List.getLastD_cons, List.headD]
      ring_nf
      simp [List.getLastD]
      ring

/-- Source clamping (`if total ≤ min then min else total`) equals `max`. -/
theorem clamp_eq_max (m x : Int) : (if x ≤ m then m else x) = max m x := by
  split <;> omega

/-- When every adjacent gap stays within the threshold, all timestamps form
one single session. -/
theorem splitSessions_chain : ∀ (l : List Int), l ≠ [] →
    List.Chain' (fun a b => b - a ≤ 30 * goMinute) l → splitSessions l = [l]
  | [], h, _ => absurd rfl h
  | [_t], _, _ => rfl
  | t :: u :: ts, _, hc => by
    have h1 : u - t ≤ 30 * goMinute := (List.chain'_cons.mp hc).1
    have h2 := splitSessions_chain (u :: ts) (by simp) (List.chain'_cons.mp hc).2
    simp only [splitSessions, if_pos h1, h2]

/-- The `getLastD` of a nonempty list is a member of it. -/
theorem getLastD_mem : ∀ (l : List Int), l ≠ [] → l.getLastD 0 ∈ l
  | [], h => absurd rfl h
  | [a], _ => by simp
  | a :: b :: t, _ => by
    rw [List.getLastD_cons 0 a (b :: t), getLastD_default_irrel b t a 0]
    exact List.mem_cons_of_mem a (getLastD_mem (b :: t) (by simp))

/-- The head of an ascending-sorted list bounds every member from below. -/
theorem sorted_headD_le (l : List Int) (hs : List.Sorted (· ≤ ·) l) :
    ∀ x ∈ l, l.headD 0 ≤ x := by
  cases l with
  | nil => intro x hx; cases hx
  | cons a t =>
    intro x hx
    rcases List.mem_cons.mp hx with rfl | hx
    · exact le_refl _
    · exact (List.sorted_cons.mp hs).1 x hx

/-- The last element of an ascending-sorted list bounds every member from
above. -/
theorem sorted_le_getLastD (l : List Int) (hs : List.Sorted (· ≤ ·) l) :
    ∀ x ∈ l, x ≤ l.getLastD 0 := by
  induction l with
  | nil => intro x hx; cases hx
  | cons a t ih =>
    intro x hx
    obtain ⟨ha, hst⟩ := List.sorted_cons.mp hs
    cases t with
    | nil =>
      rcases List.mem_cons.mp hx with rfl | hx'
      · exact le_refl _
      · cases hx'
    | cons b t' =>
      rw [List.getLastD_cons 0 a (b :: t'), getLastD_default_irrel b t' a 0]
      rcases List.mem_cons.mp hx with rfl | hx'
      · exact ha _ (getLastD_mem (b :: t') (by simp))
      · exact ih hst x hx'

/-- For a nonempty comment list the source's result is the session-span sum
of the ascending-sorted timestamp multiset, clamped up to the floor. -/
theorem CalculateTotalCommentPeriodLength_eq_sessions
    (reviewComments : List PullRequestComment) (reviewSubmittedAt : Int)
    (h : reviewComments ≠ []) :
    CalculateTotalCommentPeriodLength reviewComments reviewSubmittedAt
      = max minReviewDuration
          (sessionSpanSum
            (sortTimes (reviewSubmittedAt :: reviewComments.map (fun c => c.createdAt)))) := by
  have hlen : ¬ reviewComments.length = 0 := by simpa using h
  have hperm := List.perm_insertionSort (· ≤ ·)
    (reviewSubmittedAt :: reviewComments.map (fun c => c.createdAt))
  have hne : sortTimes (reviewSubmittedAt :: reviewComments.map (fun c => c.createdAt)) ≠ [] := by
    intro h0
    have := hperm.length_eq
    rw [sortTimes] at h0
    rw [h0] at this
    simp at this
  unfold CalculateTotalCommentPeriodLength
  rw [if_neg hlen]
  cases hsort : sortTimes (reviewSubmittedAt :: reviewComments.map (fun c => c.createdAt)) with
  | nil => exact absurd hsort hne
  | cons d0 rest =>
    simp only [periodWalk_spec rest d0 d0 0, zero_add]
    obtain ⟨s, rest2, hs⟩ := splitSessions_head d0 rest
    have hsum : spanSumFrom d0 (splitSessions (d0 :: rest)) = sessionSpanSum (d0 :: rest) := by
      simp only [sessionSpanSum]
      rw [hs]
      simp [spanSumFrom, sessionSpan, List.headD]
    rw [hsum, clamp_eq_max]

/-- The head of a nonempty list is a member of it. -/
theorem headD_mem (l : List Int) (h : l ≠ []) : l.headD 0 ∈ l := by
  cases l with
  | nil => exact absurd rfl h
  | cons a t => exact List.mem_cons_self a t

/-- C4: for every non-empty comment list and submission time, the Period
Merger's result equals the sum over maximal sessions of (sessionEnd −
sessionStart), where sessions are formed by sorting the multiset
{reviewSubmittedAt} ∪ {comment createdAt} ascending and splitting exactly at
adjacent gaps strictly greater than 30 minutes, subject to the 3-minute
floor; the head and last of the sorted list are the minimum and maximum of
that multiset, and when every adjacent gap of the sorted timestamps stays
within 30 minutes the result is max − min clamped up to the floor; finally,
for two comments 31 minutes apart with the submission 10 minutes after the
second, the result is the sum of the two sub-session spans (10 minutes),
not the full 41-minute span. -/
theorem period_merger_session_sum
    (reviewComments : List PullRequestComment) (reviewSubmittedAt : Int)
    (h : reviewComments ≠ []) :
    (CalculateTotalCommentPeriodLength reviewComments reviewSubmittedAt
      = max minReviewDuration
          (sessionSpanSum
            (sortTimes (reviewSubmittedAt :: reviewComments.map (fun c => c.createdAt)))))
    ∧ ((∀ x ∈ reviewSubmittedAt :: reviewComments.map (fun c => c.createdAt),
          (sortTimes (reviewSubmittedAt :: reviewComments.map (fun c => c.createdAt))).headD 0 ≤ x
          ∧ x ≤ (sortTimes (reviewSubmittedAt :: reviewComments.map (fun c => c.createdAt))).getLastD 0)
        ∧ (sortTimes (reviewSubmittedAt :: reviewComments.map (fun c => c.createdAt))).headD 0
            ∈ reviewSubmittedAt :: reviewComments.map (fun c => c.createdAt)
        ∧ (sortTimes (reviewSubmittedAt :: reviewComments.map (fun c => c.createdAt))).getLastD 0
            ∈ reviewSubmittedAt :: reviewComments.map (fun c => c.createdAt))
    ∧ (List.Chain' (fun a b => b - a ≤ 30 * goMinute)
          (sortTimes (reviewSubmittedAt :: reviewComments.map (fun c => c.createdAt))) →
        CalculateTotalCommentPeriodLength reviewComments reviewSubmittedAt
          = max minReviewDuration
              ((sortTimes (reviewSubmittedAt :: reviewComments.map (fun c => c.createdAt))).getLastD 0
                - (sortTimes (reviewSubmittedAt :: reviewComments.map (fun c => c.createdAt))).headD 0))
    ∧ (CalculateTotalCommentPeriodLength
          [mkTimedComment 0, mkTimedComment (31 * goMinute)] (41 * goMinute) = 10 * goMinute
        ∧ (10 : Int) * goMinute ≠ 41 * goMinute) := by
  have hperm := List.perm_insertionSort (· ≤ ·)
    (reviewSubmittedAt :: reviewComments.map (fun c => c.createdAt))
  have hsorted := List.sorted_insertionSort (· ≤ ·)
    (reviewSubmittedAt :: reviewComments.map (fun c => c.createdAt))
  have hne : sortTimes (reviewSubmittedAt :: reviewComments.map (fun c => c.createdAt)) ≠ [] := by
    intro h0
    have hl := hperm.length_eq
    rw [sortTimes] at h0
    rw [h0] at hl
    simp at hl
  refine ⟨CalculateTotalCommentPeriodLength_eq_sessions _ _ h, ⟨?_, ?_, ?_⟩, ?_, by decide, by decide⟩
  · intro x hx
    have hx' : x ∈ sortTimes (reviewSubmittedAt :: reviewComments.map (fun c => c.createdAt)) :=
      hperm.mem_iff.mpr hx
    exact ⟨sorted_headD_le _ hsorted x hx', sorted_le_getLastD _ hsorted x hx'⟩
  · exact hperm.mem_iff.mp (headD_mem _ hne)
  · exact hperm.mem_iff.mp (getLastD_mem _ hne)
  · intro hch
    rw [CalculateTotalCommentPeriodLength_eq_sessions _ _ h]
    have : sessionSpanSum (sortTimes (reviewSubmittedAt :: reviewComments.map (fun c => c.createdAt)))
        = (sortTimes (reviewSubmittedAt :: reviewComments.map (fun c => c.createdAt))).getLastD 0
          - (sortTimes (reviewSubmittedAt :: reviewComments.map (fun c => c.createdAt))).headD 0 := by
      rw [sessionSpanSum, splitSessions_chain _ hne hch]
      simp [sessionSpan]
    rw [this]

/-- Witness for C4 at a concrete input (one comment at instant 0, submission
at instant 0). -/
theorem period_merger_session_sum_witness :
    [mkTimedComment 0] ≠ []
    ∧ ((CalculateTotalCommentPeriodLength [mkTimedComment 0] 0
      = max minReviewDuration
          (sessionSpanSum (sortTimes (0 :: [mkTimedComment 0].map (fun c => c.createdAt)))))
    ∧ ((∀ x ∈ (0 : Int) :: [mkTimedComment 0].map (fun c => c.createdAt),
          (sortTimes (0 :: [mkTimedComment 0].map (fun c => c.createdAt))).headD 0 ≤ x
          ∧ x ≤ (sortTimes (0 :: [mkTimedComment 0].map (fun c => c.createdAt))).getLastD 0)
        ∧ (sortTimes (0 :: [mkTimedComment 0].map (fun c => c.createdAt))).headD 0
            ∈ (0 : Int) :: [mkTimedComment 0].map (fun c => c.createdAt)
        ∧ (sortTimes (0 :: [mkTimedComment 0].map (fun c => c.createdAt))).getLastD 0
            ∈ (0 : Int) :: [mkTimedComment 0].map (fun c => c.createdAt))
    ∧ (List.Chain' (fun a b => b - a ≤ 30 * goMinute)
          (sortTimes (0 :: [mkTimedComment 0].map (fun c => c.createdAt))) →
        CalculateTotalCommentPeriodLength [mkTimedComment 0] 0
          = max minReviewDuration
              ((sortTimes (0 :: [mkTimedComment 0].map (fun c => c.createdAt))).getLastD 0
                - (sortTimes (0 :: [mkTimedComment 0].map (fun c => c.createdAt))).headD 0))
    ∧ (CalculateTotalCommentPeriodLength
          [mkTimedComment 0, mkTimedComment (31 * goMinute)] (41 * goMinute) = 10 * goMinute
        ∧ (10 : Int) * goMinute ≠ 41 * goMinute)) :=
  ⟨by decide, period_merger_session_sum [mkTimedComment 0] 0 (by decide)⟩

/-- C5: the Period Merger never returns a duration below the 3-minute floor;
with an empty comment list it returns exactly the floor, and whenever the
computed session total is below the floor it returns the floor. -/
theorem period_merger_floor (reviewComments : List PullRequestComment)
    (reviewSubmittedAt : Int) :
    minReviewDuration ≤ CalculateTotalCommentPeriodLength reviewComments reviewSubmittedAt
    ∧ (reviewComments = [] →
        CalculateTotalCommentPeriodLength reviewComments reviewSubmittedAt = minReviewDuration)
    ∧ (computedSessionTotal reviewComments reviewSubmittedAt < minReviewDuration →
        CalculateTotalCommentPeriodLength reviewComments reviewSubmittedAt = minReviewDuration) := by
  refine ⟨?_, ?_, ?_⟩
  · by_cases h0 : reviewComments.length = 0
    · simp [CalculateTotalCommentPeriodLength, h0]
    · unfold CalculateTotalCommentPeriodLength
      rw [if_neg h0]
      cases hsort : sortTimes (reviewSubmittedAt :: reviewComments.map (fun c => c.createdAt)) with
      | nil => exact le_refl _
      | cons d0 rest =>
        dsimp only
        split <;> omega
  · intro hnil
    subst hnil
    simp [CalculateTotalCommentPeriodLength]
  · intro hlt
    by_cases h0 : reviewComments.length = 0
    · simp [CalculateTotalCommentPeriodLength, h0]
    · unfold computedSessionTotal at hlt
      unfold CalculateTotalCommentPeriodLength
      rw [if_neg h0]
      cases hsort : sortTimes (reviewSubmittedAt :: reviewComments.map (fun c => c.createdAt)) with
      | nil => rfl
      | cons d0 rest =>
        rw [hsort] at hlt
        dsimp only at hlt ⊢
        rw [if_pos (le_of_lt hlt)]

/-- Witness for C5: the empty comment list returns exactly the floor, a
single instantaneous comment falls below the floor and is clamped to it,
and the floor lower bound holds there. -/
theorem period_merger_floor_witness :
    CalculateTotalCommentPeriodLength [] 0 = minReviewDuration
    ∧ CalculateTotalCommentPeriodLength [mkTimedComment 0] 0 = minReviewDuration
    ∧ minReviewDuration ≤ CalculateTotalCommentPeriodLength [] 0 :=
  ⟨(period_merger_floor [] 0).2.1 rfl,
   (period_merger_floor [mkTimedComment 0] 0).2.2 (by decide),
   (period_merger_floor [] 0).1⟩

/-- C10: the Period Merger's result is invariant under permuting the comment
list; it depends only on the multiset of timestamps. -/
theorem period_merger_perm_invariant (reviewSubmittedAt : Int)
    (c₁ c₂ : List PullRequestComment) (hp : List.Perm c₁ c₂) :
    CalculateTotalCommentPeriodLength c₁ reviewSubmittedAt
      = CalculateTotalCommentPeriodLength c₂ reviewSubmittedAt := by
  have hlen := hp.length_eq
  have hmap : List.Perm (reviewSubmittedAt :: c₁.map (fun c => c.createdAt))
      (reviewSubmittedAt :: c₂.map (fun c => c.createdAt)) :=
    (hp.map (fun c => c.createdAt)).cons reviewSubmittedAt
  have hsort : sortTimes (reviewSubmittedAt :: c₁.map (fun c => c.createdAt))
      = sortTimes (reviewSubmittedAt :: c₂.map (fun c => c.createdAt)) :=
    List.eq_of_perm_of_sorted
      (((List.perm_insertionSort _ _).trans hmap).trans (List.perm_insertionSort _ _).symm)
      (List.sorted_insertionSort _ _) (List.sorted_insertionSort _ _)
  unfold CalculateTotalCommentPeriodLength
  rw [hlen, hsort]

/-- Witness for C10 at a concrete transposition of two comments. -/
theorem period_merger_perm_invariant_witness :
    List.Perm [mkTimedComment 0, mkTimedComment (40 * goMinute)]
      [mkTimedComment (40 * goMinute), mkTimedComment 0]
    ∧ CalculateTotalCommentPeriodLength [mkTimedComment 0, mkTimedComment (40 * goMinute)] 0
      = CalculateTotalCommentPeriodLength [mkTimedComment (40 * goMinute), mkTimedComment 0] 0 :=
  ⟨by decide,
   period_merger_perm_invariant 0 [mkTimedComment 0, mkTimedComment (40 * goMinute)]
     [mkTimedComment (40 * goMinute), mkTimedComment 0] (by decide)⟩

/-- Congruence helper for rewriting the integer state of `filterScan`. -/
theorem filterScan_congr (dF dT i i' s s' e e' : Int) (f fb : Bool)
    (l : List GHPullRequest) (hi : i = i') (hs : s = s') (he : e = e') :
    filterScan dF dT i s e f fb l = filterScan dF dT i' s' e' f fb l := by
  subst hi hs he
  rfl

/-- The stop signal of the scan is set iff a PR created strictly before
`dateFrom` occurs in the list (the scan breaks at the first such PR). -/
theorem filterScan_stop (dateFrom dateTo : Int) :
    ∀ (l : List GHPullRequest) (i s e : Int) (f fb : Bool),
      (filterScan dateFrom dateTo i s e f fb l).2.2.2
        = (fb || l.any (fun pr => decide (pr.createdAt < dateFrom))) := by
  intro l
  induction l with
  | nil => intro i s e f fb; simp [filterScan]
  | cons pr rest ih =>
    intro i s e f fb
    by_cases h1 : pr.createdAt < dateFrom
    · simp [filterScan, h1]
    · by_cases h2 : dateTo < pr.createdAt
      · simp [filterScan, h1, h2, ih]
      · simp [filterScan, h1, h2, ih]

/-- Scanning a segment of PRs that are all newer than `dateTo` (and in
particular not before `dateFrom`) only advances the index and the running
`endIndex`. -/
theorem filterScan_skip (dateFrom dateTo : Int) :
    ∀ (H rest : List GHPullRequest) (i s e : Int) (f fb : Bool),
      (∀ pr ∈ H, dateTo < pr.createdAt ∧ ¬ pr.createdAt < dateFrom) →
      filterScan dateFrom dateTo i s e f fb (H ++ rest)
        = filterScan dateFrom dateTo (i + H.length) s
            (if H = [] then e else i + H.length - 1) f fb rest := by
  intro H
  induction H with
  | nil =>
    intro rest i s e f fb _
    simp
  | cons pr H ih =>
    intro rest i s e f fb hall
    obtain ⟨h2, h1⟩ := hall pr (List.mem_cons_self pr H)
    simp only [List.cons_append, filterScan, List.append_eq]
    rw [if_neg h1, if_pos h2,
      ih rest (i + 1) s i f fb (fun q hq => hall q (List.mem_cons_of_mem pr hq)),
      if_neg (List.cons_ne_nil pr H)]
    apply filterScan_congr
    · simp only [List.length_cons]
      push_cast
      ring
    · rfl
    · by_cases hH : H = []
      · subst hH
        simp
      · rw [if_neg hH]
        simp only [List.length_cons]
        push_cast
        ring

/-- Scanning a segment of in-window PRs with `startIndex` already set keeps
`startIndex`, keeps `found` true, and advances `endIndex` to the segment's
last index. -/
theorem filterScan_inwindow_set (dateFrom dateTo : Int) :
    ∀ (M rest : List GHPullRequest) (i s e : Int) (fb : Bool),
      ¬ s = -1 →
      (∀ pr ∈ M, dateFrom ≤ pr.createdAt ∧ pr.createdAt ≤ dateTo) →
      filterScan dateFrom dateTo i s e true fb (M ++ rest)
        = filterScan dateFrom dateTo (i + M.length) s
            (if M = [] then e else i + M.length - 1) true fb rest := by
  intro M
  induction M with
  | nil =>
    intro rest i s e fb _ _
    simp
  | cons pr M ih =>
    intro rest i s e fb hs hall
    obtain ⟨h1, h2⟩ := hall pr (List.mem_cons_self pr M)
    simp only [List.cons_append, filterScan, List.append_eq]
    rw [if_neg (by omega : ¬ pr.createdAt < dateFrom),
      if_neg (by omega : ¬ dateTo < pr.createdAt), if_neg hs,
      ih rest (i + 1) s i fb hs (fun q hq => hall q (List.mem_cons_of_mem pr hq)),
      if_neg (List.cons_ne_nil pr M)]
    apply filterScan_congr
    · simp only [List.length_cons]
      push_cast
      ring
    · rfl
    · by_cases hM : M = []
      · subst hM
        simp
      · rw [if_neg hM]
        simp only [List.length_cons]
        push_cast
        ring

/-- The first in-window PR sets `startIndex` to the current index and
`found` to true; a nonempty in-window segment then advances to its end. -/
theorem filterScan_inwindow (dateFrom dateTo : Int) (M rest : List GHPullRequest)
    (i e : Int) (f fb : Bool) (hi : 0 ≤ i) (hM : M ≠ [])
    (hall : ∀ pr ∈ M, dateFrom ≤ pr.createdAt ∧ pr.createdAt ≤ dateTo) :
    filterScan dateFrom dateTo i (-1) e f fb (M ++ rest)
      = filterScan dateFrom dateTo (i + M.length) i (i + M.length - 1) true fb rest := by
  cases M with
  | nil => exact absurd rfl hM
  | cons pr M =>
    obtain ⟨h1, h2⟩ := hall pr (List.mem_cons_self pr M)
    simp only [List.cons_append, filterScan, List.append_eq]
    rw [if_neg (by omega : ¬ pr.createdAt < dateFrom),
      if_neg (by omega : ¬ dateTo < pr.createdAt), if_pos trivial,
      filterScan_inwindow_set dateFrom dateTo M rest (i + 1) i i fb (by omega)
        (fun q hq => hall q (List.mem_cons_of_mem pr hq))]
    apply filterScan_congr
    · simp only [List.length_cons]
      push_cast
      ring
    · rfl
    · by_cases hM' : M = []
      · subst hM'
        simp
      · rw [if_neg hM']
        simp only [List.length_cons]
        push_cast
        ring

/-- Scanning a segment whose PRs are all older than `dateFrom` stops at its
first element (if any), leaving the state and setting the stop signal. -/
theorem filterScan_low (dateFrom dateTo : Int) (L : List GHPullRequest)
    (i s e : Int) (f fb : Bool)
    (hall : ∀ pr ∈ L, pr.createdAt < dateFrom) :
    filterScan dateFrom dateTo i s e f fb L = (s, e, f, fb || !L.isEmpty) := by
  cases L with
  | nil => simp [filterScan]
  | cons pr L =>
    simp only [filterScan]
    rw [if_pos (hall pr (List.mem_cons_self pr L))]
    simp

/-- In a descending-sorted list, everything after dropping the
newer-than-`dateTo` prefix is at or below `dateTo`. -/
theorem dropWhile_le_dateTo (dateTo : Int) :
    ∀ (l : List GHPullRequest),
      List.Pairwise (fun a b => b.createdAt ≤ a.createdAt) l →
      ∀ x ∈ l.dropWhile (fun pr => decide (dateTo < pr.createdAt)), x.createdAt ≤ dateTo := by
  intro l
  induction l with
  | nil => intro _ x hx; simp at hx
  | cons a t ih =>
    intro hs x hx
    rw [List.dropWhile_cons] at hx
    by_cases ha : dateTo < a.createdAt
    · rw [if_pos (by simpa using ha)] at hx
      exact ih (List.pairwise_cons.mp hs).2 x hx
    · rw [if_neg (by simpa using ha)] at hx
      rcases List.mem_cons.mp hx with rfl | hx'
      · omega
      · have := (List.pairwise_cons.mp hs).1 x hx'
        omega

/-- In a descending-sorted list, everything after dropping the
at-or-after-`dateFrom` prefix is strictly before `dateFrom`. -/
theorem dropWhile_lt_dateFrom (dateFrom : Int) :
    ∀ (l : List GHPullRequest),
      List.Pairwise (fun a b => b.createdAt ≤ a.createdAt) l →
      ∀ x ∈ l.dropWhile (fun pr => decide (dateFrom ≤ pr.createdAt)), x.createdAt < dateFrom := by
  intro l
  induction l with
  | nil => intro _ x hx; simp at hx
  | cons a t ih =>
    intro hs x hx
    rw [List.dropWhile_cons] at hx
    by_cases ha : dateFrom ≤ a.createdAt
    · rw [if_pos (by simpa using ha)] at hx
      exact ih (List.pairwise_cons.mp hs).2 x hx
    · rw [if_neg (by simpa using ha)] at hx
      rcases List.mem_cons.mp hx with rfl | hx'
      · omega
      · have := (List.pairwise_cons.mp hs).1 x hx'
        omega

/-- When every element of a list satisfies the predicate, `any` reports the
list's non-emptiness. -/
theorem any_of_all_true (p : GHPullRequest → Bool) :
    ∀ (l : List GHPullRequest), (∀ x ∈ l, p x = true) → l.any p = !l.isEmpty := by
  intro l
  cases l with
  | nil => intro _; rfl
  | cons a t => intro h; simp [h a (List.mem_cons_self a t)]

/-- Unfolding of `filterPullRequests` on a nonempty page. -/
theorem filterPullRequests_ne_nil (prs : List GHPullRequest) (h : prs ≠ [])
    (dateFrom dateTo : Int) :
    filterPullRequests prs dateFrom dateTo
      = (match filterScan dateFrom dateTo 0 (-1) (-1) false false prs with
         | (startIndex, endIndex, found, foundBeforeDateFrom) =>
           if found = false then ([], false, foundBeforeDateFrom)
           else (listSlice prs startIndex (endIndex + 1), found, foundBeforeDateFrom)) := by
  cases prs with
  | nil => exact absurd rfl h
  | cons a l => rfl

/-- Scan of a decomposed page with no in-window segment. -/
theorem filterScan_decomp_noM (dateFrom dateTo : Int) (H L : List GHPullRequest)
    (hH : ∀ pr ∈ H, dateTo < pr.createdAt ∧ ¬ pr.createdAt < dateFrom)
    (hL : ∀ pr ∈ L, pr.createdAt < dateFrom) :
    filterScan dateFrom dateTo 0 (-1) (-1) false false (H ++ L)
      = (-1, if H = [] then -1 else (H.length : Int) - 1, false, !L.isEmpty) := by
  rw [filterScan_skip dateFrom dateTo H L 0 (-1) (-1) false false hH,
    filterScan_low dateFrom dateTo L _ _ _ _ _ hL]
  simp

/-- Scan of a decomposed page with a nonempty in-window segment. -/
theorem filterScan_decomp_M (dateFrom dateTo : Int) (H M L : List GHPullRequest)
    (hH : ∀ pr ∈ H, dateTo < pr.createdAt ∧ ¬ pr.createdAt < dateFrom)
    (hM : ∀ pr ∈ M, dateFrom ≤ pr.createdAt ∧ pr.createdAt ≤ dateTo)
    (hL : ∀ pr ∈ L, pr.createdAt < dateFrom) (hMne : M ≠ []) :
    filterScan dateFrom dateTo 0 (-1) (-1) false false (H ++ (M ++ L))
      = ((H.length : Int), (H.length : Int) + M.length - 1, true, !L.isEmpty) := by
  rw [filterScan_skip dateFrom dateTo H (M ++ L) 0 (-1) (-1) false false hH,
    filterScan_inwindow dateFrom dateTo M L (0 + (H.length : Int)) _ false false (by omega)
      hMne hM,
    filterScan_low dateFrom dateTo L _ _ _ _ _ hL]
  simp

/-- `filterPullRequests` on a page decomposed into a newer-than-window
prefix, an in-window middle and a before-window suffix returns exactly the
middle, its non-emptiness as the found flag, and the suffix's
non-emptiness as the stop signal. -/
theorem filterPullRequests_decomp (dateFrom dateTo : Int) (H M L : List GHPullRequest)
    (hH : ∀ pr ∈ H, dateTo < pr.createdAt ∧ ¬ pr.createdAt < dateFrom)
    (hM : ∀ pr ∈ M, dateFrom ≤ pr.createdAt ∧ pr.createdAt ≤ dateTo)
    (hL : ∀ pr ∈ L, pr.createdAt < dateFrom) :
    filterPullRequests (H ++ (M ++ L)) dateFrom dateTo = (M, !M.isEmpty, !L.isEmpty) := by
  by_cases hnil : H ++ (M ++ L) = []
  · rw [List.append_eq_nil] at hnil
    obtain ⟨h1, h2⟩ := hnil
    rw [List.append_eq_nil] at h2
    obtain ⟨h2, h3⟩ := h2
    subst h1 h2 h3
    rfl
  · rw [filterPullRequests_ne_nil _ hnil]
    by_cases hMne : M = []
    · subst hMne
      rw [List.nil_append, filterScan_decomp_noM dateFrom dateTo H L hH hL]
      rfl
    · rw [filterScan_decomp_M dateFrom dateTo H M L hH hM hL hMne]
      have hbool : M.isEmpty = false := by
        cases M with
        | nil => exact absurd rfl hMne
        | cons a l => rfl
      have hidx : ((H.length : Int) + (M.length : Int) - 1 + 1) = ((H.length + M.length : Nat) : Int) := by
        push_cast
        ring
      have hslice : listSlice (H ++ (M ++ L)) (H.length : Int)
          ((H.length : Int) + (M.length : Int) - 1 + 1) = M := by
        rw [hidx]
        unfold listSlice
        rw [Int.toNat_natCast, Int.toNat_natCast, List.drop_left H (M ++ L)]
        have htake : H.length + M.length - H.length = M.length := by omega
        rw [htake, List.take_left M L]
      simp only []
      rw [hslice]
      simp [hbool]

/-- Full characterization of the Window Filter on a page sorted descending
by creation time, with a well-formed window: the returned slice is exactly
the in-window PRs, the found flag is their non-emptiness, and the stop
signal reports the presence of a PR created strictly before `dateFrom`. -/
theorem filterPullRequests_sorted (prs : List GHPullRequest) (dateFrom dateTo : Int)
    (hw : dateFrom ≤ dateTo)
    (hsorted : List.Pairwise (fun a b => b.createdAt ≤ a.createdAt) prs) :
    filterPullRequests prs dateFrom dateTo
      = (prs.filter (inWindow dateFrom dateTo),
         !(prs.filter (inWindow dateFrom dateTo)).isEmpty,
         prs.any (fun pr => decide (pr.createdAt < dateFrom))) := by
  have hdecomp : prs = pageHigh dateTo prs ++ (pageMid dateFrom dateTo prs ++ pageLow dateFrom dateTo prs) := by
    rw [pageMid, pageLow, List.takeWhile_append_dropWhile, pageHigh, pageRest,
      List.takeWhile_append_dropWhile]
  have hH : ∀ pr ∈ pageHigh dateTo prs, dateTo < pr.createdAt ∧ ¬ pr.createdAt < dateFrom := by
    intro pr hpr
    have h := List.mem_takeWhile_imp hpr
    simp only [decide_eq_true_eq] at h
    exact ⟨h, by omega⟩
  have hRle : ∀ x ∈ pageRest dateTo prs, x.createdAt ≤ dateTo :=
    dropWhile_le_dateTo dateTo prs hsorted
  have hsortedR : List.Pairwise (fun a b => b.createdAt ≤ a.createdAt) (pageRest dateTo prs) :=
    hsorted.sublist (List.dropWhile_sublist _)
  have hM : ∀ pr ∈ pageMid dateFrom dateTo prs,
      dateFrom ≤ pr.createdAt ∧ pr.createdAt ≤ dateTo := by
    intro pr hpr
    have h := List.mem_takeWhile_imp hpr
    simp only [decide_eq_true_eq] at h
    exact ⟨h, hRle pr ((List.takeWhile_sublist _).subset hpr)⟩
  have hL : ∀ x ∈ pageLow dateFrom dateTo prs, x.createdAt < dateFrom :=
    dropWhile_lt_dateFrom dateFrom (pageRest dateTo prs) hsortedR
  have hfH : (pageHigh dateTo prs).filter (inWindow dateFrom dateTo) = [] := by
    rw [List.filter_eq_nil_iff]
    intro a ha
    have h1 := (hH a ha).1
    simp only [inWindow, Bool.and_eq_true, decide_eq_true_eq, not_and]
    intro _
    omega
  have hfM : (pageMid dateFrom dateTo prs).filter (inWindow dateFrom dateTo)
      = pageMid dateFrom dateTo prs := by
    rw [List.filter_eq_self]
    intro a ha
    simp only [inWindow, Bool.and_eq_true, decide_eq_true_eq]
    exact hM a ha
  have hfL : (pageLow dateFrom dateTo prs).filter (inWindow dateFrom dateTo) = [] := by
    rw [List.filter_eq_nil_iff]
    intro a ha
    have h1 := hL a ha
    simp only [inWindow, Bool.and_eq_true, decide_eq_true_eq, not_and]
    intro h2
    omega
  have hfilter : prs.filter (inWindow dateFrom dateTo) = pageMid dateFrom dateTo prs := by
    conv_lhs => rw [hdecomp]
    rw [List.filter_append, List.filter_append, hfH, hfM, hfL]
    simp
  have hany : prs.any (fun pr => decide (pr.createdAt < dateFrom))
      = !(pageLow dateFrom dateTo prs).isEmpty := by
    conv_lhs => rw [hdecomp]
    rw [List.any_append, List.any_append]
    have h1 : (pageHigh dateTo prs).any (fun pr => decide (pr.createdAt < dateFrom)) = false := by
      rw [List.any_eq_false]
      intro x hx
      have := (hH x hx).2
      simpa using this
    have h2 : (pageMid dateFrom dateTo prs).any (fun pr => decide (pr.createdAt < dateFrom))
        = false := by
      rw [List.any_eq_false]
      intro x hx
      have := (hM x hx).1
      simp only [decide_eq_true_eq]
      omega
    have h3 : (pageLow dateFrom dateTo prs).any (fun pr => decide (pr.createdAt < dateFrom))
        = !(pageLow dateFrom dateTo prs).isEmpty :=
      any_of_all_true _ _ (fun x hx => by simpa using hL x hx)
    rw [h1, h2, h3]
    simp
  rw [hfilter, hany]
  conv_lhs => rw [hdecomp]
  exact filterPullRequests_decomp dateFrom dateTo _ _ _ hH hM hL

/-- The page decomposes as newer-prefix, in-window middle, older suffix. -/
theorem page_decomp (prs : List GHPullRequest) (dateFrom dateTo : Int) :
    prs = pageHigh dateTo prs
      ++ (pageMid dateFrom dateTo prs ++ pageLow dateFrom dateTo prs) := by
  rw [pageMid, pageLow, List.takeWhile_append_dropWhile, pageHigh, pageRest,
    List.takeWhile_append_dropWhile]

/-- PRs of the newer-than-`dateTo` prefix are out of window. -/
theorem pageHigh_not_inWindow (prs : List GHPullRequest) (dateFrom dateTo : Int) :
    ∀ pr ∈ pageHigh dateTo prs, inWindow dateFrom dateTo pr = false := by
  intro pr hpr
  have h := List.mem_takeWhile_imp hpr
  simp only [decide_eq_true_eq] at h
  simp only [inWindow, Bool.and_eq_false_iff, decide_eq_false_iff_not]
  right
  omega

/-- PRs of the before-`dateFrom` suffix of a sorted page are out of window. -/
theorem pageLow_not_inWindow (prs : List GHPullRequest) (dateFrom dateTo : Int)
    (hsorted : List.Pairwise (fun a b => b.createdAt ≤ a.createdAt) prs) :
    ∀ pr ∈ pageLow dateFrom dateTo prs, inWindow dateFrom dateTo pr = false := by
  intro pr hpr
  have h := dropWhile_lt_dateFrom dateFrom (pageRest dateTo prs)
    (hsorted.sublist (List.dropWhile_sublist _)) pr hpr
  simp only [inWindow, Bool.and_eq_false_iff, decide_eq_false_iff_not]
  left
  omega

/-- On a sorted page the in-window filter is exactly the middle segment. -/
theorem filter_eq_pageMid (prs : List GHPullRequest) (dateFrom dateTo : Int)
    (hsorted : List.Pairwise (fun a b => b.createdAt ≤ a.createdAt) prs) :
    prs.filter (inWindow dateFrom dateTo) = pageMid dateFrom dateTo prs := by
  conv_lhs => rw [page_decomp prs dateFrom dateTo]
  rw [List.filter_append, List.filter_append]
  have hfH : (pageHigh dateTo prs).filter (inWindow dateFrom dateTo) = [] := by
    rw [List.filter_eq_nil_iff]
    intro a ha
    rw [pageHigh_not_inWindow prs dateFrom dateTo a ha]
    simp
  have hfM : (pageMid dateFrom dateTo prs).filter (inWindow dateFrom dateTo)
      = pageMid dateFrom dateTo prs := by
    rw [List.filter_eq_self]
    intro a ha
    have h1 := List.mem_takeWhile_imp ha
    simp only [decide_eq_true_eq] at h1
    have h2 := dropWhile_le_dateTo dateTo prs hsorted a ((List.takeWhile_sublist _).subset ha)
    simp only [inWindow, Bool.and_eq_true, decide_eq_true_eq]
    exact ⟨h1, h2⟩
  have hfL : (pageLow dateFrom dateTo prs).filter (inWindow dateFrom dateTo) = [] := by
    rw [List.filter_eq_nil_iff]
    intro a ha
    rw [pageLow_not_inWindow prs dateFrom dateTo hsorted a ha]
    simp
  rw [hfH, hfM, hfL]
  simp

/-- C3: on every page sorted descending by creation time with a well-formed
window, the Window Filter returns exactly the PRs with
`dateFrom ≤ createdAt ≤ dateTo` (boundaries inclusive), which form the
contiguous run reachable from the scan start (out-of-window prefix and
suffix around them); the stop signal is true iff some PR is created
strictly before `dateFrom`; an empty page, a page entirely newer than
`dateTo`, and a page entirely older than `dateFrom` behave as specified. -/
theorem window_filter_spec (prs : List GHPullRequest) (dateFrom dateTo : Int)
    (hw : dateFrom ≤ dateTo)
    (hsorted : List.Pairwise (fun a b => b.createdAt ≤ a.createdAt) prs) :
    ((filterPullRequests prs dateFrom dateTo).1 = prs.filter (inWindow dateFrom dateTo))
    ∧ (∃ pre post, prs = pre ++ prs.filter (inWindow dateFrom dateTo) ++ post
        ∧ (∀ pr ∈ pre, inWindow dateFrom dateTo pr = false)
        ∧ (∀ pr ∈ post, inWindow dateFrom dateTo pr = false))
    ∧ ((filterPullRequests prs dateFrom dateTo).2.2 = true
        ↔ ∃ pr ∈ prs, pr.createdAt < dateFrom)
    ∧ (prs = [] → filterPullRequests prs dateFrom dateTo = ([], false, false))
    ∧ ((∀ pr ∈ prs, dateTo < pr.createdAt) →
        filterPullRequests prs dateFrom dateTo = ([], false, false))
    ∧ (prs ≠ [] → (∀ pr ∈ prs, pr.createdAt < dateFrom) →
        filterPullRequests prs dateFrom dateTo = ([], false, true)) := by
  have hchar := filterPullRequests_sorted prs dateFrom dateTo hw hsorted
  refine ⟨?_, ?_, ?_, ?_, ?_, ?_⟩
  · rw [hchar]
  · refine ⟨pageHigh dateTo prs, pageLow dateFrom dateTo prs, ?_,
      pageHigh_not_inWindow prs dateFrom dateTo,
      pageLow_not_inWindow prs dateFrom dateTo hsorted⟩
    rw [filter_eq_pageMid prs dateFrom dateTo hsorted, List.append_assoc]
    exact page_decomp prs dateFrom dateTo
  · rw [hchar]
    simp [List.any_eq_true]
  · intro h
    subst h
    rfl
  · intro hall
    rw [hchar]
    have hf : prs.filter (inWindow dateFrom dateTo) = [] := by
      rw [List.filter_eq_nil_iff]
      intro a ha
      have := hall a ha
      simp only [inWindow, Bool.and_eq_true, decide_eq_true_eq, not_and]
      intro _
      omega
    have ha : prs.any (fun pr => decide (pr.createdAt < dateFrom)) = false := by
      rw [List.any_eq_false]
      intro x hx
      have := hall x hx
      simp only [decide_eq_true_eq]
      omega
    rw [hf, ha]
    rfl
  · intro hne hall
    rw [hchar]
    have hf : prs.filter (inWindow dateFrom dateTo) = [] := by
      rw [List.filter_eq_nil_iff]
      intro a ha
      have := hall a ha
      simp only [inWindow, Bool.and_eq_true, decide_eq_true_eq, not_and]
      intro h2
      omega
    obtain ⟨x, hx⟩ := List.exists_mem_of_ne_nil prs hne
    have ha : prs.any (fun pr => decide (pr.createdAt < dateFrom)) = true := by
      rw [List.any_eq_true]
      exact ⟨x, hx, by simpa using hall x hx⟩
    rw [hf, ha]
    rfl

/-- Witness for C3 on a concrete descending page containing a newer-than-
window PR, two in-window PRs and an older-than-window PR. -/
theorem window_filter_spec_witness :
    (20 : Int) ≤ 60
    ∧ List.Pairwise (fun a b => b.createdAt ≤ a.createdAt)
        [mkGHPR 1 100, mkGHPR 2 50, mkGHPR 3 40, mkGHPR 4 10]
    ∧ (((filterPullRequests [mkGHPR 1 100, mkGHPR 2 50, mkGHPR 3 40, mkGHPR 4 10] 20 60).1
        = [mkGHPR 1 100, mkGHPR 2 50, mkGHPR 3 40, mkGHPR 4 10].filter (inWindow 20 60))
    ∧ (∃ pre post, [mkGHPR 1 100, mkGHPR 2 50, mkGHPR 3 40, mkGHPR 4 10]
          = pre ++ [mkGHPR 1 100, mkGHPR 2 50, mkGHPR 3 40, mkGHPR 4 10].filter (inWindow 20 60)
              ++ post
        ∧ (∀ pr ∈ pre, inWindow 20 60 pr = false)
        ∧ (∀ pr ∈ post, inWindow 20 60 pr = false))
    ∧ (((filterPullRequests [mkGHPR 1 100, mkGHPR 2 50, mkGHPR 3 40, mkGHPR 4 10] 20 60).2.2
          = true
        ↔ ∃ pr ∈ [mkGHPR 1 100, mkGHPR 2 50, mkGHPR 3 40, mkGHPR 4 10], pr.createdAt < 20))
    ∧ ([mkGHPR 1 100, mkGHPR 2 50, mkGHPR 3 40, mkGHPR 4 10] = ([] : List GHPullRequest) →
        filterPullRequests [mkGHPR 1 100, mkGHPR 2 50, mkGHPR 3 40, mkGHPR 4 10] 20 60
          = ([], false, false))
    ∧ ((∀ pr ∈ [mkGHPR 1 100, mkGHPR 2 50, mkGHPR 3 40, mkGHPR 4 10], (60 : Int) < pr.createdAt) →
        filterPullRequests [mkGHPR 1 100, mkGHPR 2 50, mkGHPR 3 40, mkGHPR 4 10] 20 60
          = ([], false, false))
    ∧ ([mkGHPR 1 100, mkGHPR 2 50, mkGHPR 3 40, mkGHPR 4 10] ≠ [] →
        (∀ pr ∈ [mkGHPR 1 100, mkGHPR 2 50, mkGHPR 3 40, mkGHPR 4 10], pr.createdAt < 20) →
        filterPullRequests [mkGHPR 1 100, mkGHPR 2 50, mkGHPR 3 40, mkGHPR 4 10] 20 60
          = ([], false, true))) :=
  ⟨by decide, by decide,
   window_filter_spec [mkGHPR 1 100, mkGHPR 2 50, mkGHPR 3 40, mkGHPR 4 10] 20 60
     (by decide) (by decide)⟩

/-- Correctness of the prefix test. -/
theorem charsStartWith_iff : ∀ (s p : List Char), charsStartWith s p = true ↔ p <+: s := by
  intro s p
  induction p generalizing s with
  | nil =>
    cases s <;> simp [charsStartWith]
  | cons q ps ih =>
    cases s with
    | nil => simp [charsStartWith]
    | cons c cs =>
      simp only [charsStartWith, Bool.and_eq_true, beq_iff_eq, ih, List.cons_prefix_cons]
      tauto

/-- Correctness of substring containment: `charsContain s p` holds iff `p`
occurs contiguously inside `s`. -/
theorem charsContain_iff : ∀ (s p : List Char), charsContain s p = true ↔ p <:+: s := by
  intro s
  induction s with
  | nil =>
    intro p
    cases p <;> simp [charsContain, List.isEmpty]
  | cons c cs ih =>
    intro p
    simp only [charsContain, Bool.or_eq_true, charsStartWith_iff, ih, List.infix_cons_iff]

/-- Correctness of `strContains` against contiguous-substring occurrence. -/
theorem strContains_iff (s p : String) :
    strContains s p = true ↔ p.toList <:+: s.toList :=
  charsContain_iff s.toList p.toList

/-- C2 (code bug): in the end-to-end scenario of one PR with one submitted
review, one comment, and one qualifying later commit, the aggregator
finalizes `percentageCommentsLeadingToChanges` to `1/100`, not the `100`
required by `changeCount / totalComments × 100`: the source's finalization
divides the running count by a fraction derived from itself
(`p /= (p / totalComments) * 100`), while the straightforward formula at
these values gives 100. -/
theorem percentage_formula_bug :
    CalculateMetrics scenarioClient ("owner") ("repo") 0 1000000
      = some (some [("reviewer1", finalizeUserMetrics scenarioRunningMetrics)], [])
    ∧ (finalizeUserMetrics scenarioRunningMetrics).percentageCommentsLeadingToChanges = 1 / 100
    ∧ ((1 : Rat) / 100 ≠ 100)
    ∧ ((1 : Rat) / (1 : Rat) * 100 = 100) := by
  refine ⟨by rfl, ?_, by norm_num, by norm_num⟩
  simp only [finalizeUserMetrics, scenarioRunningMetrics]
  norm_num

/-- C6 (code bug): the commit `matcherCommitDistinctPtr` satisfies every
condition of the claim — a file whose filename string equals the comment's
file path, a non-empty patch, and the patch contains the hunk pattern
`@@ -10` — yet the matcher returns `false`, because the source compares the
two `*string` pointers with `==` (pointer identity) instead of comparing
the strings; with the very same allocation shared it returns `true`, and
the filename-mismatch, empty-patch, and not-strictly-after cases behave as
the claim says. -/
theorem change_matcher_pointer_bug :
    (∃ f ∈ matcherCommitDistinctPtr.files,
        f.filename.val = matcherComment.path.val ∧ f.patch ≠ ""
          ∧ strContains f.patch (hunkPattern matcherComment.originalPosition) = true)
    ∧ isCommentAddressedByCommit matcherComment matcherCommitDistinctPtr = false
    ∧ isCommentAddressedByCommit matcherComment matcherCommitSharedPtr = true
    ∧ isCommentAddressedByCommit matcherComment matcherCommitWrongName = false
    ∧ isCommentAddressedByCommit matcherComment matcherCommitEmptyPatch = false
    ∧ commentsLeadingToChangesCount [matcherComment] [matcherCommitNotAfter] = 0
    ∧ commentsLeadingToChangesCount [matcherComment] [matcherCommitSharedPtr] = 1
    ∧ (hunkPattern matcherComment.originalPosition).toList <:+:
        ("@@ -10,7 +10,9 @@" : String).toList := by
  refine ⟨by decide, by decide, by decide, by decide, by decide, by decide, by decide, ?_⟩
  exact (strContains_iff ("@@ -10,7 +10,9 @@") (hunkPattern matcherComment.originalPosition)).mp
    (by decide)

/-- C9 (code bug): on the review list as produced by the data source,
grouping panics instead of silently dropping the review lacking
`submittedAt`: `newPullRequestReview` converts such a review to a nil
pointer that stays in the slice, and `getUserReviews` dereferences
`review.SubmittedAt` on it. A non-nil entry with a nil `SubmittedAt` (the
intended case of the source's check) is silently dropped, and submitted
reviews are grouped under their author. -/
theorem grouping_panics_on_unsubmitted_review :
    getUserReviews (newPullRequestReviewSlice [submittedGHReview, unsubmittedGHReview]) = none
    ∧ newPullRequestReview unsubmittedGHReview = none
    ∧ getUserReviews [some unsubmittedDirect] = some []
    ∧ getUserReviews (newPullRequestReviewSlice [submittedGHReview])
        = some [(("bob"), [submittedConverted])] := by
  refine ⟨by decide, by decide, by decide, by decide⟩

/-- C1 (code bug): the rate check performed after the quota-exhausting call
does fail with the rate-limit error carrying the wait duration until reset
(first conjunct), but `GetPullRequests` discards that error at the call
site: the run surfaces no error, fetches the announced second page anyway
(the call counter advances from 1 to 3), and returns the PRs of both
pages. -/
theorem rate_limit_error_not_surfaced :
    (verifyRateLimit { apiRateUsed := 1, apiRateRemaining := 5000 } (rateApi 0).resp 0).2
      = some ("Rate limit reached and will be reset in 1000")
    ∧ GetPullRequests rateApi 20 60 0 { apiRateUsed := 1, apiRateRemaining := 5000 } 10
      = some ([newPullRequest (mkGHPR 1 50), newPullRequest (mkGHPR 2 40)], none,
          { apiRateUsed := 3, apiRateRemaining := 4999 }) := by
  refine ⟨by decide, by decide⟩

/-- Looking up a key different from the one being set is unchanged. -/
theorem mapGet_mapSet_ne (m : List (String × ContributorMetrics)) (key k : String)
    (v : ContributorMetrics) (h : key ≠ k) : mapGet (mapSet m key v) k = mapGet m k := by
  induction m with
  | nil => simp [mapGet, mapSet, h]
  | cons kv rest ih =>
    obtain ⟨k', w⟩ := kv
    by_cases hk : k' = key
    · subst hk
      rw [mapSet, if_pos rfl, mapGet, mapGet, if_neg h, if_neg h]
    · rw [mapSet, if_neg hk, mapGet, mapGet]
      by_cases hkk : k' = k
      · rw [if_pos hkk, if_pos hkk]
      · rw [if_neg hkk, if_neg hkk, ih]

/-- Processing one author bucket never touches the PR author's entry: the
bucket keyed by the author's own login is skipped, and any other bucket
updates only its own key. -/
theorem mapGet_processUserBucket (pr : PullRequest)
    (reviewComments : List (Int × List (Int × List PullRequestComment)))
    (comments : List PullRequestComment) (commits : List RepositoryCommit)
    (m : List (String × ContributorMetrics)) (user : String)
    (reviews : List PullRequestReview) :
    mapGet (processUserBucket pr reviewComments comments commits m user reviews) pr.userLogin
      = mapGet m pr.userLogin := by
  rw [processUserBucket]
  split
  · rename_i hu
    dsimp only
    rw [mapGet_mapSet_ne _ user pr.userLogin _ hu]
    split
    · rfl
    · rw [mapGet_mapSet_ne _ user pr.userLogin _ hu]
  · rfl

/-- C8: for every PR processed by the aggregator, the PR author's metrics
entry is unchanged — a review whose author login equals the PR author's
login is never counted toward that author's metrics, even when such
reviews are present among the grouped buckets (`getUserReviews` keys each
bucket by the reviews' author login, and the bucket equal to
`pr.userLogin` is skipped by the `user != *pr.UserLogin` guard). -/
theorem author_never_counted (pr : PullRequest)
    (userReviews : List (String × List PullRequestReview))
    (reviewComments : List (Int × List (Int × List PullRequestComment)))
    (comments : List PullRequestComment) (commits : List RepositoryCommit)
    (m : List (String × ContributorMetrics)) :
    mapGet (processPR pr userReviews reviewComments comments commits m) pr.userLogin
      = mapGet m pr.userLogin := by
  induction userReviews generalizing m with
  | nil => rfl
  | cons b rest ih =>
    simp only [processPR, List.foldl_cons] at ih ⊢
    rw [ih, mapGet_processUserBucket]

/-- Every terminating, non-panicking run of the PR loop either succeeds
with a map and no errors, or aborts with a nil map and a non-empty error
list. -/
theorem calculateMetricsLoop_shape (client : GitClient) (owner repo : String) :
    ∀ (prs : List PullRequest) (metrics : List (String × ContributorMetrics))
      (res : Option (List (String × ContributorMetrics)) × List String),
      calculateMetricsLoop client owner repo prs metrics = some res →
      (res.2 = [] ∧ ∃ mm, res.1 = some mm) ∨ (res.1 = none ∧ res.2 ≠ []) := by
  intro prs
  induction prs with
  | nil =>
    intro metrics res h
    simp only [calculateMetricsLoop] at h
    injection h with h
    subst h
    exact Or.inl ⟨rfl, _, rfl⟩
  | cons pr rest ih =>
    intro metrics res h
    simp only [calculateMetricsLoop] at h
    split at h
    · injection h with h
      subst h
      exact Or.inr ⟨rfl, by simp⟩
    · split at h
      · cases h
      · split at h
        · injection h with h
          subst h
          exact Or.inr ⟨rfl, by simp⟩
        · split at h
          · exact ih _ res h
          · split at h
            · rename_i he
              injection h with h
              subst h
              refine Or.inr ⟨rfl, ?_⟩
              intro hnil
              rw [hnil] at he
              simp at he
            · exact ih _ res h

/-- C7: any data-source error during the PR, review, comment, or commit
fetch aborts the entire run with a nil metrics map and a non-empty error
list carrying exactly the fetch's error(s): the PR-fetch error is returned
directly; once the fetched PR list is in hand the run is the PR loop, and
at whichever PR the review fetch, the comment fetch, or the commit fetch
(reached when the PR has comments) fails, the loop returns `(nil, errs)`
immediately — for every accumulated metrics state and every list of
remaining PRs, so no partial metrics survive; moreover every returned
result of the aggregator is either a map with an empty error list or a nil
map with a non-empty one (non-empty errors imply a nil map). -/
theorem aggregator_error_semantics (client : GitClient) (owner repo : String)
    (dateFrom dateTo : Int) :
    (∀ res : Option (List (String × ContributorMetrics)) × List String,
        CalculateMetrics client owner repo dateFrom dateTo = some res →
        ((res.2 = [] ∧ ∃ mm, res.1 = some mm) ∨ (res.1 = none ∧ res.2 ≠ [])))
    ∧ (∀ e, client.getPullRequests owner repo dateFrom dateTo = .error e →
        CalculateMetrics client owner repo dateFrom dateTo = some (none, [e]))
    ∧ (∀ prs, client.getPullRequests owner repo dateFrom dateTo = .ok prs →
        CalculateMetrics client owner repo dateFrom dateTo
          = calculateMetricsLoop client owner repo prs [])
    ∧ (∀ (pr : PullRequest) (rest : List PullRequest)
        (metrics : List (String × ContributorMetrics)) (e : String),
        client.getReviews owner repo pr.number = .error e →
        calculateMetricsLoop client owner repo (pr :: rest) metrics = some (none, [e]))
    ∧ (∀ (pr : PullRequest) (rest : List PullRequest)
        (metrics : List (String × ContributorMetrics))
        (reviewsRaw : List (Option PullRequestReview))
        (userReviews : List (String × List PullRequestReview)) (e : String),
        client.getReviews owner repo pr.number = .ok reviewsRaw →
        getUserReviews reviewsRaw = some userReviews →
        client.getComments owner repo pr.number = .error e →
        calculateMetricsLoop client owner repo (pr :: rest) metrics = some (none, [e]))
    ∧ (∀ (pr : PullRequest) (rest : List PullRequest)
        (metrics : List (String × ContributorMetrics))
        (reviewsRaw : List (Option PullRequestReview))
        (userReviews : List (String × List PullRequestReview))
        (c0 : PullRequestComment) (cs : List PullRequestComment),
        client.getReviews owner repo pr.number = .ok reviewsRaw →
        getUserReviews reviewsRaw = some userReviews →
        client.getComments owner repo pr.number = .ok (c0 :: cs) →
        (client.getCommits owner repo pr.number c0.createdAt true).2 ≠ [] →
        calculateMetricsLoop client owner repo (pr :: rest) metrics
          = some (none, (client.getCommits owner repo pr.number c0.createdAt true).2)) := by
  refine ⟨?_, ?_, ?_, ?_, ?_, ?_⟩
  · intro res h
    simp only [CalculateMetrics] at h
    cases hpr : client.getPullRequests owner repo dateFrom dateTo with
    | error e =>
      rw [hpr] at h
      injection h with h
      subst h
      exact Or.inr ⟨rfl, by simp⟩
    | ok prs =>
      rw [hpr] at h
      exact calculateMetricsLoop_shape client owner repo prs [] res h
  · intro e he
    simp only [CalculateMetrics, he]
  · intro prs hok
    simp only [CalculateMetrics, hok]
  · intro pr rest metrics e he
    simp only [calculateMetricsLoop, he]
  · intro pr rest metrics reviewsRaw userReviews e hrev hur hcom
    simp only [calculateMetricsLoop, hrev, hur, hcom]
  · intro pr rest metrics reviewsRaw userReviews c0 cs hrev hur hcom herrs
    simp only [calculateMetricsLoop, hrev, hur, hcom]
    rw [if_pos (List.length_pos.mpr herrs)]

/-- Witness for C7 exercising all four fetch stages on concrete failing
clients: the PR-fetch error aborts the aggregator, and a review-fetch,
comment-fetch, or commit-fetch error aborts the PR loop (for the commit
stage also the composed full run), each with a nil map and exactly that
error; the shape disjunction holds at the PR-fetch result. -/
theorem aggregator_error_semantics_witness :
    CalculateMetrics failingClient ("o") ("r") 0 100 = some (none, [("boom")])
    ∧ calculateMetricsLoop reviewsFailClient ("o") ("r") [scenarioPR] []
        = some (none, [("rev-boom")])
    ∧ calculateMetricsLoop commentsFailClient ("o") ("r") [scenarioPR] []
        = some (none, [("com-boom")])
    ∧ calculateMetricsLoop commitsFailClient ("o") ("r") [scenarioPR] []
        = some (none, [("git-boom")])
    ∧ CalculateMetrics commitsFailClient ("o") ("r") 0 100 = some (none, [("git-boom")])
    ∧ ((((none, [("boom")]) : Option (List (String × ContributorMetrics)) × List String).2 = []
          ∧ ∃ mm, ((none, [("boom")])
              : Option (List (String × ContributorMetrics)) × List String).1 = some mm)
        ∨ (((none, [("boom")]) : Option (List (String × ContributorMetrics)) × List String).1
              = none
          ∧ ((none, [("boom")])
              : Option (List (String × ContributorMetrics)) × List String).2 ≠ [])) :=
  ⟨(aggregator_error_semantics failingClient ("o") ("r") 0 100).2.1 ("boom") rfl,
   (aggregator_error_semantics reviewsFailClient ("o") ("r") 0 100).2.2.2.1
     scenarioPR [] [] ("rev-boom") rfl,
   (aggregator_error_semantics commentsFailClient ("o") ("r") 0 100).2.2.2.2.1
     scenarioPR [] [] [some scenarioReview] [(("reviewer1"), [scenarioReview])] ("com-boom")
     rfl rfl rfl,
   (aggregator_error_semantics commitsFailClient ("o") ("r") 0 100).2.2.2.2.2
     scenarioPR [] [] [some scenarioReview] [(("reviewer1"), [scenarioReview])]
     scenarioComment [] rfl rfl rfl (by decide),
   ((aggregator_error_semantics commitsFailClient ("o") ("r") 0 100).2.2.1
       [scenarioPR] rfl).trans
     ((aggregator_error_semantics commitsFailClient ("o") ("r") 0 100).2.2.2.2.2
       scenarioPR [] [] [some scenarioReview] [(("reviewer1"), [scenarioReview])]
       scenarioComment [] rfl rfl rfl (by decide)),
   (aggregator_error_semantics failingClient ("o") ("r") 0 100).1 (none, [("boom")])
     ((aggregator_error_semantics failingClient ("o") ("r") 0 100).2.1 ("boom") rfl)⟩
